import Mathlib

/-!
Verification of the record-reconciliation core of bugzilla2gitlab
(src/bugzilla2gitlab/models.py) against its natural-language specification.

Texts are modelled as lists of characters.  Python's falsy/truthy tests on
strings and integers are modelled explicitly where they matter.  Network
effects are modelled as explicit request traces.
-/

namespace Bugzilla2Gitlab

/-- Does the list s start with the literal pat?  (s.startswith(pat)) -/
def startsLit : List Char → List Char → Bool
  | [], _ => true
  | _ :: _, [] => false
  | a :: as, b :: bs => a = b && startsLit as bs

/-- Drop the literal pat from the front of s, or none when s does not start
with pat. -/
def dropLit : List Char → List Char → Option (List Char)
  | [], s => some s
  | _ :: _, [] => none
  | a :: as, b :: bs => if a = b then dropLit as bs else none

/-- Python's substring test: pat occurs contiguously inside s (pat in s). -/
def containsSub (pat : List Char) : List Char → Bool
  | [] => startsLit pat []
  | c :: rest => startsLit pat (c :: rest) || containsSub pat rest

/-- Decimal digit string to a natural number, as Python's int() on a digit
run. -/
def digitsToNat (ds : List Char) : Nat :=
  ds.foldl (fun acc c => 10 * acc + (c.toNat - '0'.toNat)) 0

/-- Embedding of needs_quoting (models.py lines 345-358): wrap the whole text
in a pre block when it holds a character the GitLab renderer treats
specially, or more than one equals sign; otherwise return it unchanged. -/
def needs_quoting (txt : List Char) : List Char :=
  if '#' ∈ txt ∨ '>' ∈ txt ∨ '_' ∈ txt ∨ '-' ∈ txt ∨ 1 < txt.count '=' ∨
     '~' ∈ txt ∨ '|' ∈ txt ∨ '*' ∈ txt ∨ '+' ∈ txt ∨ '@' ∈ txt then
    "<pre>".data ++ txt ++ "</pre>".data
  else
    txt

/-- Embedding of Attachment.parse_comment_text (models.py lines 308-314).
The regex (anchored at the start of the string by re.match) succeeds exactly
when the text starts with the literal announcement followed by at least one
digit and a closing parenthesis; the rest of the first line is arbitrary.
Python returns False on no match, modelled here as none. -/
def parse_comment_text (comment : List Char) : Option Nat :=
  match dropLit "Created an attachment (id=".data comment with
  | none => none
  | some rest =>
    let ds := rest.takeWhile Char.isDigit
    if ds.isEmpty then none
    else
      match rest.dropWhile Char.isDigit with
      | ')' :: _ => some (digitsToNat ds)
      | _ => none

/-- Python truthiness of the value returned by parse_comment_text: False is
falsy and so is the integer 0, so an announcement carrying id 0 is
indistinguishable from a failed match at the call sites. -/
def attachmentIdTruthy : Option Nat → Bool
  | none => false
  | some n => n != 0

/-- Does the list start with an id marker: a left parenthesis, the letters
id, an equals sign, one or more digits, and a right parenthesis. -/
def idPatternAt (s : List Char) : Bool :=
  match dropLit "(id=".data s with
  | none => false
  | some rest =>
    !(rest.takeWhile Char.isDigit).isEmpty &&
      (match rest.dropWhile Char.isDigit with
       | ')' :: _ => true
       | _ => false)

/-- Does the id marker occur anywhere in the list. -/
def hasIdPattern : List Char → Bool
  | [] => false
  | c :: rest => idPatternAt (c :: rest) || hasIdPattern rest

/-- Does an announcement-strip match begin exactly here: the literal Created,
then somewhere later on the same line the id marker.  This mirrors where the
regex of models.py line 162 can match, since the dot does not cross
newlines. -/
def announceHere (s : List Char) : Bool :=
  match dropLit "Created".data s with
  | none => false
  | some rest => hasIdPattern (rest.takeWhile (fun c => c ≠ '\n'))

/-- Index of the leftmost position where the announcement-strip regex
matches, as re.sub uses. -/
def findCreated : List Char → Option Nat
  | [] => none
  | c :: rest =>
    if announceHere (c :: rest) then some 0
    else (findCreated rest).map (· + 1)

/-- Drop the rest of the current line and then every consecutive newline, as
one greedy iteration of the trailing group of the regex of line 162. -/
def dropLineNewlines (s : List Char) : List Char :=
  (s.dropWhile (fun c => c ≠ '\n')).dropWhile (fun c => c = '\n')

/-- Embedding of the boilerplate strip at models.py lines 162-164: re.sub
with count 1 removes, from the leftmost match position, the rest of that
line, its trailing newlines, the whole following line, and its trailing
newlines (the greedy one-or-two-line tail group). -/
def stripAnnouncement (txt : List Char) : List Char :=
  match findCreated txt with
  | none => txt
  | some p => txt.take p ++ dropLineNewlines (dropLineNewlines (txt.drop p))

/-- Errors raised by the engine.  The source raises bare Exceptions; we tag
them by their formatted message: the data-consistency message of models.py
lines 158 and 168 names the referenced id and the comment text, the
validation message of lines 203 and 278 names the missing field. -/
inductive MigrationError where
  | dataConsistency (id : Nat) (text : List Char)
  | missingField (field : String)
deriving DecidableEq, Repr

/-- One entry of the raw bugzilla comment stream (fields["long_desc"]), with
the keys the reconciliation code reads and writes: who, thetext, and the
attachid tag written at line 166. -/
structure RawComment where
  who : String
  thetext : List Char
  attachid : Option Nat := none
deriving DecidableEq, Repr

/-- One entry of the raw attachment array (fields["attachment"]). -/
structure RawAttachment where
  attachid : Nat
  filename : List Char
  isobsolete : Bool
deriving DecidableEq, Repr

/-- The derived attachment of the registry, as constructed at models.py line
144 (its transfer side effect is modelled separately by
upload_attachment). -/
structure Attachment where
  id : Nat
  filename : List Char
deriving DecidableEq, Repr

/-- Modern CPython re.split helper: with the pattern of zero-or-more
newlines, the scanner emits a piece at every position; a run of newlines is
one non-empty match, immediately followed by an accepted empty match (empty
matches are skipped only when adjacent to a previous empty match).  The
skipping flag tells whether we are just past a newline run. -/
def reSplitNewlinesGo (skipping : Bool) : List Char → List (List Char)
  | [] => [[]]
  | c :: rest =>
    if c = '\n' then
      if skipping then reSplitNewlinesGo true rest
      else [] :: reSplitNewlinesGo true rest
    else [c] :: reSplitNewlinesGo false rest

/-- Embedding of re.split with the zero-or-more-newlines pattern under the
semantics of CPython 3.7 and later, as used at models.py line 127: the text
is cut at every position, so every piece is a single character, with empty
pieces at the ends and where newline runs were consumed. -/
def reSplitNewlines (s : List Char) : List (List Char) :=
  [] :: reSplitNewlinesGo false s

/-- Embedding of the extended-description body expression of models.py line
127: sanitize the text, split it, and join the pieces with blank lines. -/
def extDescriptionBody (txt : List Char) : List Char :=
  List.intercalate "\n\n".data (reSplitNewlines (needs_quoting txt))

/-- Embedding of the description-folding step of models.py lines 123-128:
when the first comment is authored by the reporter and its text is truthy
(non-empty), it is deleted from the stream and its processed text is
appended to the extended description after the heading.  Returns the
extended description text and the remaining stream.  (On an empty stream the
source would raise IndexError; the claims only concern non-empty streams.) -/
def foldFirstComment (reporter : String) : List RawComment → List Char × List RawComment
  | [] => ([], [])
  | c :: rest =>
    if c.who = reporter ∧ c.thetext ≠ [] then
      ("\n## Extended Description \n".data ++ extDescriptionBody c.thetext, rest)
    else
      ([], c :: rest)

/-- Insertion into a Python dict modelled as an insertion-ordered association
list: an existing key is updated in place, a new key is appended. -/
def dictInsert : List (Nat × Attachment) → Nat → Attachment → List (Nat × Attachment)
  | [], k, v => [(k, v)]
  | (k', v') :: rest, k, v =>
    if k' = k then (k, v) :: rest else (k', v') :: dictInsert rest k v

/-- The mutable state of the registry-build loop of models.py lines 130-146:
the attachments dict, the attachment_files list, and the
obsolete_attachments list. -/
structure RegistryState where
  attachments : List (Nat × Attachment)
  attachment_files : List (List Char)
  obsolete_attachments : List Nat
deriving DecidableEq, Repr

/-- Embedding of one iteration of the registry-build loop (models.py lines
133-146).  A non-obsolete attachment first collects every previously
registered filename that contains its own filename as a substring; when
exactly one such match exists the attachment is registered under that
matched name with the filler character x in front (the matched name is also
replaced in the files list), otherwise under its own name unchanged.  An
obsolete attachment only records its id. -/
def registerAttachment (st : RegistryState) (a : RawAttachment) : RegistryState :=
  if a.isobsolete then
    { st with obsolete_attachments := st.obsolete_attachments ++ [a.attachid] }
  else
    match st.attachment_files.filter (fun x => containsSub a.filename x) with
    | [m] =>
      { attachments := dictInsert st.attachments a.attachid ⟨a.attachid, 'x' :: m⟩
        attachment_files := st.attachment_files.erase m ++ ['x' :: m]
        obsolete_attachments := st.obsolete_attachments }
    | _ =>
      { attachments := dictInsert st.attachments a.attachid ⟨a.attachid, a.filename⟩
        attachment_files := st.attachment_files ++ [a.filename]
        obsolete_attachments := st.obsolete_attachments }

/-- Embedding of the whole registry-build loop over the attachment array in
source order, starting from empty state. -/
def buildRegistry (atts : List RawAttachment) : RegistryState :=
  atts.foldl registerAttachment ⟨[], [], []⟩

/-- Embedding of the per-comment branch of the reconciliation loop
(models.py lines 150-168).  The parsed announcement id is tested with Python
truthiness, so a failed match and a parsed id 0 both fall through.  The Bool
of the result marks the comment for deletion (the to_delete list), mirroring
that the reporter's resolving announcements are deleted while another
author's resolving announcements are rewritten in place (boilerplate
stripped, attachid tag set).  An id resolving to neither the registry keys
nor the obsolete ids raises the data-consistency error naming id and
text. -/
def reconcileStep (reporter : String) (registryIds obsoleteIds : List Nat)
    (c : RawComment) : Except MigrationError (RawComment × Bool) :=
  let aid := parse_comment_text c.thetext
  if attachmentIdTruthy aid then
    match aid with
    | none => .ok (c, false)
    | some i =>
      if c.who = reporter then
        if i ∈ registryIds ∨ i ∈ obsoleteIds then .ok (c, true)
        else .error (.dataConsistency i c.thetext)
      else
        if i ∈ registryIds ∨ i ∈ obsoleteIds then
          .ok ({ who := c.who, thetext := stripAnnouncement c.thetext,
                 attachid := some i }, false)
        else .error (.dataConsistency i c.thetext)
  else
    .ok (c, false)

/-- First pass of the reconciliation loop over the whole stream in order,
stopping at the first error as the raise statement does. -/
def reconcilePass (reporter : String) (registryIds obsoleteIds : List Nat) :
    List RawComment → Except MigrationError (List (RawComment × Bool))
  | [] => .ok []
  | c :: cs =>
    match reconcileStep reporter registryIds obsoleteIds c with
    | .error e => .error e
    | .ok p =>
      match reconcilePass reporter registryIds obsoleteIds cs with
      | .error e => .error e
      | .ok rest => .ok (p :: rest)

/-- Embedding of the reconciliation of models.py lines 148-172: the marking
pass followed by the deletion of the marked indices (deleting in reversed
index order equals filtering the marked entries out). -/
def reconcileComments (reporter : String) (registryIds obsoleteIds : List Nat)
    (cs : List RawComment) : Except MigrationError (List RawComment) :=
  match reconcilePass reporter registryIds obsoleteIds cs with
  | .error e => .error e
  | .ok l => .ok ((l.filter (fun p => !p.2)).map (fun p => p.1))

/-- Embedding of the comment-loading filter of IssueThread.load_objects
(models.py lines 32-34): a Comment object is built only for stream entries
whose thetext is truthy, so an entry with an empty text is silently
dropped by the engine here. -/
def loadComments (cs : List RawComment) : List RawComment :=
  cs.filter (fun c => !c.thetext.isEmpty)

/-- One network request actually performed against a remote service. -/
structure NetRequest where
  url : String
  method : String
deriving DecidableEq, Repr

/-- Modelled from the spec: the transport collaborator _perform_request lives
in utils.py, which is not part of the sources; per the spec its dry-run mode
returns synthetic identifiers and performs no network I/O, and otherwise it
performs the request.  We model only the trace of performed requests. -/
def perform_request_trace (url method : String) (dry_run : Bool) : List NetRequest :=
  if dry_run then [] else [⟨url, method⟩]

/-- Embedding of Attachment.__upload_attachment (models.py lines 316-329).
The GET of the attachment content from bugzilla at line 318 passes no
dry-run flag, so it is performed in every mode; the POST to the gitlab
uploads endpoint at line 323 passes conf.dry_run.  In dry-run mode the
returned display token is the placeholder built from the filename, otherwise
it is the markdown field of the upload response (an external input, passed
in as responseMarkdown).  Returns the performed-request trace and the
token. -/
def upload_attachment (dryRun : Bool) (bugzillaBaseUrl gitlabBaseUrl gitlabProjectId : String)
    (id : Nat) (filename : List Char) (responseMarkdown : List Char) :
    List NetRequest × List Char :=
  let getTrace := perform_request_trace
    (bugzillaBaseUrl ++ "/attachment.cgi?id=" ++ toString id) "get" false
  let postTrace := perform_request_trace
    (gitlabBaseUrl ++ "/projects/" ++ gitlabProjectId ++ "/uploads") "post" dryRun
  (getTrace ++ postTrace,
   if dryRun then "[attachment](".data ++ filename ++ ")".data else responseMarkdown)

/-- The fields of the issue model that its save path reads. -/
structure IssueModel where
  title : List Char
  description : List Char
  status : String
  sudoUser : Nat
deriving DecidableEq, Repr

/-- The fields of the comment model that its save path reads. -/
structure CommentModel where
  body : List Char
  sudoUser : Nat
deriving DecidableEq, Repr

/-- The observable actions of the save path of an issue thread, in the order
they are performed. -/
inductive SaveAction where
  | validateIssue
  | submitIssue
  | validateComment (body : List Char)
  | submitComment (body : List Char)
  | setAdmin (sudoUser : Nat) (state : Bool)
  | closeIssue
deriving DecidableEq, Repr

/-- Embedding of Issue.validate (models.py lines 199-204): the required
fields title, description, status are checked for truthiness in order and
the first falsy one raises naming the field. -/
def issueValidate (iss : IssueModel) : Except MigrationError Unit :=
  if iss.title.isEmpty then .error (.missingField "title")
  else if iss.description.isEmpty then .error (.missingField "description")
  else if iss.status = "" then .error (.missingField "status")
  else .ok ()

/-- The temporary admin elevation around a submission (models.py lines
208-209 and 218-219): nothing is done when the acting user is already an
admin. -/
def adminToggle (admins : Nat → Bool) (sudoUser : Nat) (state : Bool) : List SaveAction :=
  if admins sudoUser then [] else [.setAdmin sudoUser state]

/-- Embedding of Issue.save (models.py lines 206-228) as its action trace:
validate, elevate when needed, submit, restore. -/
def issueSaveTrace (admins : Nat → Bool) (iss : IssueModel) :
    Except MigrationError (List SaveAction) :=
  match issueValidate iss with
  | .error e => .error e
  | .ok _ =>
    .ok ([.validateIssue] ++ adminToggle admins iss.sudoUser true ++
         [.submitIssue] ++ adminToggle admins iss.sudoUser false)

/-- Embedding of Comment.validate (models.py lines 274-278): body and
issue_id are checked for truthiness in order (the issue id 0 is falsy). -/
def commentValidate (cm : CommentModel) (issue_id : Nat) : Except MigrationError Unit :=
  if cm.body.isEmpty then .error (.missingField "body")
  else if issue_id = 0 then .error (.missingField "issue_id")
  else .ok ()

/-- Embedding of Comment.save (models.py lines 280-293) as its action
trace. -/
def commentSaveTrace (admins : Nat → Bool) (issue_id : Nat) (cm : CommentModel) :
    Except MigrationError (List SaveAction) :=
  match commentValidate cm issue_id with
  | .error e => .error e
  | .ok _ =>
    .ok ([.validateComment cm.body] ++ adminToggle admins cm.sudoUser true ++
         [.submitComment cm.body] ++ adminToggle admins cm.sudoUser false)

/-- The comment loop of IssueThread.save (models.py lines 43-45), saving the
comments in their filtered order. -/
def commentsSaveTrace (admins : Nat → Bool) (issue_id : Nat) :
    List CommentModel → Except MigrationError (List SaveAction)
  | [] => .ok []
  | cm :: rest =>
    match commentSaveTrace admins issue_id cm with
    | .error e => .error e
    | .ok tr =>
      match commentsSaveTrace admins issue_id rest with
      | .error e => .error e
      | .ok trs => .ok (tr ++ trs)

/-- Embedding of IssueThread.save (models.py lines 36-49) as its action
trace: the issue is saved first, its resulting iid (the synthetic 50 in
dry-run mode, the response iid otherwise) is bound to every comment, the
comments are saved in order, and finally the close request is emitted
exactly when the bug status is the resolved value. -/
def threadSaveTrace (admins : Nat → Bool) (dryRun : Bool) (responseIid : Nat)
    (iss : IssueModel) (cms : List CommentModel) :
    Except MigrationError (List SaveAction) :=
  match issueSaveTrace admins iss with
  | .error e => .error e
  | .ok itr =>
    match commentsSaveTrace admins (if dryRun then 50 else responseIid) cms with
    | .error e => .error e
    | .ok ctr =>
      .ok (itr ++ ctr ++ (if iss.status = "RESOLVED" then [.closeIssue] else []))

/-- An announcement comment whose parsed id is truthy but resolves to
neither the registry keys nor the obsolete ids: exactly the situation in
which the reconciliation loop raises. -/
def unresolvedAnnouncement (registryIds obsoleteIds : List Nat) (c : RawComment) : Bool :=
  match parse_comment_text c.thetext with
  | some i => i != 0 && !(decide (i ∈ registryIds ∨ i ∈ obsoleteIds))
  | none => false

/-- C8: the sanitizer wraps the whole text verbatim in one pre block exactly
when the text contains one of the special characters or more than one equals
sign, and returns it byte-identical otherwise.  The condition is stated here
as the specification words it (a character of the fixed set occurs, or the
equals count exceeds one) and proved equivalent to the source's chain of
tests. -/
theorem needs_quoting_contract (txt : List Char) :
    needs_quoting txt =
      if (∃ c ∈ txt, c ∈ ['#', '>', '_', '-', '~', '|', '*', '+', '@']) ∨ 1 < txt.count '=' then
        "<pre>".data ++ txt ++ "</pre>".data
      else txt := by
  have h : ((∃ c ∈ txt, c ∈ ['#', '>', '_', '-', '~', '|', '*', '+', '@']) ∨ 1 < txt.count '=')
      ↔ ('#' ∈ txt ∨ '>' ∈ txt ∨ '_' ∈ txt ∨ '-' ∈ txt ∨ 1 < txt.count '=' ∨
         '~' ∈ txt ∨ '|' ∈ txt ∨ '*' ∈ txt ∨ '+' ∈ txt ∨ '@' ∈ txt) := by
    constructor
    · rintro (⟨c, hc, hmem⟩ | hcount)
      · simp only [List.mem_cons, List.not_mem_nil, or_false] at hmem
        rcases hmem with h | h | h | h | h | h | h | h | h <;> subst h <;> tauto
      · tauto
    · rintro (h | h | h | h | h | h | h | h | h | h)
      · exact Or.inl ⟨'#', h, by simp⟩
      · exact Or.inl ⟨'>', h, by simp⟩
      · exact Or.inl ⟨'_', h, by simp⟩
      · exact Or.inl ⟨'-', h, by simp⟩
      · exact Or.inr h
      · exact Or.inl ⟨'~', h, by simp⟩
      · exact Or.inl ⟨'|', h, by simp⟩
      · exact Or.inl ⟨'*', h, by simp⟩
      · exact Or.inl ⟨'+', h, by simp⟩
      · exact Or.inl ⟨'@', h, by simp⟩
  unfold needs_quoting
  exact (if_congr h rfl rfl).symm

/-- C3 counterexample: at the input consisting of one hash character the
double application of the sanitizer yields neither the once-wrapped text nor
the input, but a nested double block, because the wrapper markers themselves
contain trigger characters. -/
theorem sanitize_twice_counterexample :
    ¬ (needs_quoting (needs_quoting "#".data) = needs_quoting "#".data ∨
       needs_quoting (needs_quoting "#".data) = "#".data) ∧
    needs_quoting (needs_quoting "#".data) = "<pre><pre>#</pre></pre>".data := by
  decide

/-- C3 (amended): the double application of the sanitizer is the identity on
text with no trigger character and at most one equals sign, and otherwise
wraps twice into a nested double block, since the pre markers contain the
trigger character of the greater-than sign. -/
theorem sanitize_twice_amended (x : List Char) :
    needs_quoting (needs_quoting x) =
      if '#' ∈ x ∨ '>' ∈ x ∨ '_' ∈ x ∨ '-' ∈ x ∨ 1 < x.count '=' ∨
         '~' ∈ x ∨ '|' ∈ x ∨ '*' ∈ x ∨ '+' ∈ x ∨ '@' ∈ x then
        "<pre>".data ++ ("<pre>".data ++ x ++ "</pre>".data) ++ "</pre>".data
      else x := by
  by_cases h : '#' ∈ x ∨ '>' ∈ x ∨ '_' ∈ x ∨ '-' ∈ x ∨ 1 < x.count '=' ∨
      '~' ∈ x ∨ '|' ∈ x ∨ '*' ∈ x ∨ '+' ∈ x ∨ '@' ∈ x
  · rw [if_pos h]
    have h1 : needs_quoting x = "<pre>".data ++ x ++ "</pre>".data := by
      unfold needs_quoting; rw [if_pos h]
    have hgt : '>' ∈ "<pre>".data ++ x ++ "</pre>".data :=
      List.mem_append_left _ (List.mem_append_left _ (by decide))
    rw [h1]
    unfold needs_quoting
    rw [if_pos (Or.inr (Or.inl hgt))]
  · rw [if_neg h]
    have h1 : needs_quoting x = x := by unfold needs_quoting; rw [if_neg h]
    rw [h1, h1]

/-- C4: evaluation at the failing input.  A first comment authored by the
reporter with the non-empty text ok is removed from the stream, but what is
stored under the extended-description heading is the text interleaved with
blank lines between every character (the modern re.split semantics of line
127), so the sanitized body itself does not appear; a first comment by
another author is left untouched. -/
theorem fold_first_comment_mangles :
    foldFirstComment "alice" [⟨"alice", "ok".data, none⟩] =
      ("\n## Extended Description \n\n\no\n\nk\n\n".data, []) ∧
    needs_quoting "ok".data = "ok".data ∧
    containsSub "ok".data "\n## Extended Description \n\n\no\n\nk\n\n".data = false ∧
    foldFirstComment "alice" [⟨"bob", "ok".data, none⟩] = ([], [⟨"bob", "ok".data, none⟩]) := by
  refine ⟨by rfl, by rfl, by rfl, by rfl⟩

/-- C5 counterexample: with the attachments b.png and then b, the second
attachment is registered under the name xb.png, which is neither its own
name b (the zero-match reading of the claim) nor its own name with one
filler character in front (the one-match reading): the code matches by
substring and puts the filler in front of the matched prior name. -/
theorem filename_disambiguation_counterexample :
    List.lookup 2 (buildRegistry [⟨1, "b.png".data, false⟩, ⟨2, "b".data, false⟩]).attachments =
      some ⟨2, "xb.png".data⟩ ∧
    "xb.png".data ≠ "b".data ∧
    List.length "xb.png".data ≠ List.length "b".data + 1 := by
  refine ⟨by rfl, by decide, by decide⟩

/-- C2 counterexample: another author's bare announcement of an existing
attachment is kept by the reconciliation with its body stripped to the empty
text, but the comment-loading step of the engine then silently drops the
empty comment, so it is not passed through to the destination. -/
theorem reconcile_empty_comment_dropped_counterexample :
    reconcileComments "alice" [7] [] [⟨"bob", "Created an attachment (id=7)".data, none⟩] =
      .ok [⟨"bob", [], some 7⟩] ∧
    loadComments [⟨"bob", [], some 7⟩] = [] := by
  refine ⟨by rfl, by rfl⟩

/-- C7 counterexample: in dry-run mode the construction of an attachment
still performs one real network request, the GET of the attachment content
from the source system, because line 318 passes no dry-run flag; so the
performed-request trace is not empty. -/
theorem upload_dry_run_counterexample :
    (upload_attachment true "http://bugzilla.example" "http://gitlab.example/api/v4" "1" 3
        "a.png".data []).1 =
      [⟨"http://bugzilla.example/attachment.cgi?id=3", "get"⟩] ∧
    (upload_attachment true "http://bugzilla.example" "http://gitlab.example/api/v4" "1" 3
        "a.png".data []).1 ≠ [] := by
  refine ⟨by rfl, by decide⟩

/-- C7 (amended): in dry-run mode the destination upload is skipped, so the
performed trace is exactly the one source-side GET of the attachment
content, and the display token is the deterministic placeholder built from
the filename. -/
theorem upload_attachment_dry_run (bz gl pid : String) (id : Nat) (fn resp : List Char) :
    (upload_attachment true bz gl pid id fn resp).1 =
      [⟨bz ++ "/attachment.cgi?id=" ++ toString id, "get"⟩] ∧
    (upload_attachment true bz gl pid id fn resp).2 =
      "[attachment](".data ++ fn ++ ")".data := by
  refine ⟨rfl, rfl⟩

/-- C10: an announcement comment parsing to the id 0 is treated exactly like
a non-announcement, because the parsed id 0 is as falsy as the no-match
sentinel: whatever the registry, the obsolete set and the reporter are, the
reconciliation step keeps the comment unchanged, unmarked, and never
validates the id. -/
theorem announcement_id_zero_ignored (reporter : String)
    (registryIds obsoleteIds : List Nat) (c : RawComment)
    (h : parse_comment_text c.thetext = some 0) :
    attachmentIdTruthy (parse_comment_text c.thetext) = attachmentIdTruthy none ∧
    reconcileStep reporter registryIds obsoleteIds c = .ok (c, false) := by
  constructor
  · rw [h]; rfl
  · unfold reconcileStep
    rw [h]
    rfl

/-- Witness for C10 at a concrete comment announcing id 0 with an empty
registry and empty obsolete set. -/
theorem announcement_id_zero_ignored_witness :
    parse_comment_text "Created an attachment (id=0)".data = some 0 ∧
    reconcileStep "alice" [] [] ⟨"bob", "Created an attachment (id=0)".data, none⟩ =
      .ok (⟨"bob", "Created an attachment (id=0)".data, none⟩, false) :=
  ⟨rfl, (announcement_id_zero_ignored "alice" [] []
    ⟨"bob", "Created an attachment (id=0)".data, none⟩ rfl).2⟩

lemma lookup_dictInsert_ne (d : List (Nat × Attachment)) (k k' : Nat) (v : Attachment)
    (h : k ≠ k') : List.lookup k (dictInsert d k' v) = List.lookup k d := by
  induction d with
  | nil => simp [dictInsert, List.lookup, beq_eq_false_iff_ne.mpr h]
  | cons p rest ih =>
    obtain ⟨k0, v0⟩ := p
    by_cases hk : k0 = k'
    · subst hk
      simp [dictInsert, List.lookup, beq_eq_false_iff_ne.mpr h]
    · simp only [dictInsert, if_neg hk, List.lookup]
      by_cases hkk : k = k0
      · subst hkk; simp
      · simp [beq_eq_false_iff_ne.mpr hkk, ih]

/-- C5 (amended): for a non-obsolete attachment, when exactly one previously
registered filename contains the new filename as a substring, the new
attachment is registered under that matched filename with the single filler
character x in front (a name necessarily different from the matched one);
with zero or two-or-more such matches the filename is registered as-is; and
in every case the registry entries of all other ids, in particular the
earlier attachment's original name, are unchanged. -/
theorem register_attachment_disambiguation (st : RegistryState) (a : RawAttachment)
    (hobs : a.isobsolete = false) :
    (∀ m, st.attachment_files.filter (fun x => containsSub a.filename x) = [m] →
       (registerAttachment st a).attachments =
         dictInsert st.attachments a.attachid ⟨a.attachid, 'x' :: m⟩ ∧ 'x' :: m ≠ m) ∧
    (∀ ms, st.attachment_files.filter (fun x => containsSub a.filename x) = ms →
       ms.length ≠ 1 →
       (registerAttachment st a).attachments =
         dictInsert st.attachments a.attachid ⟨a.attachid, a.filename⟩) ∧
    (∀ k, k ≠ a.attachid →
       List.lookup k (registerAttachment st a).attachments = List.lookup k st.attachments) := by
  have hred : registerAttachment st a =
      match st.attachment_files.filter (fun x => containsSub a.filename x) with
      | [m] =>
        { attachments := dictInsert st.attachments a.attachid ⟨a.attachid, 'x' :: m⟩
          attachment_files := st.attachment_files.erase m ++ ['x' :: m]
          obsolete_attachments := st.obsolete_attachments }
      | _ =>
        { attachments := dictInsert st.attachments a.attachid ⟨a.attachid, a.filename⟩
          attachment_files := st.attachment_files ++ [a.filename]
          obsolete_attachments := st.obsolete_attachments } := by
    unfold registerAttachment
    rw [hobs]
    simp
  refine ⟨?_, ?_, ?_⟩
  · intro m hm
    refine ⟨?_, ?_⟩
    · rw [hred, hm]
    · intro he
      have := congrArg List.length he
      simp at this
  · intro ms hm hlen
    rw [hred, hm]
    match ms, hlen with
    | [], _ => rfl
    | [m], h => exact absurd rfl h
    | m1 :: m2 :: rest, _ => rfl
  · intro k hk
    rw [hred]
    rcases hfil : st.attachment_files.filter (fun x => containsSub a.filename x) with
      _ | ⟨m1, _ | ⟨m2, ms⟩⟩
    · exact lookup_dictInsert_ne _ _ _ _ hk
    · exact lookup_dictInsert_ne _ _ _ _ hk
    · exact lookup_dictInsert_ne _ _ _ _ hk

/-- Witness for C5 (amended): registering the attachment named b after the
attachment named b.png puts it under the name xb.png and leaves the entry of
id 1 untouched. -/
theorem register_attachment_disambiguation_witness :
    (registerAttachment (buildRegistry [⟨1, "b.png".data, false⟩])
        ⟨2, "b".data, false⟩).attachments =
      dictInsert (buildRegistry [⟨1, "b.png".data, false⟩]).attachments 2
        ⟨2, 'x' :: "b.png".data⟩ ∧
    ('x' :: "b.png".data) ≠ "b.png".data ∧
    List.lookup 1 (registerAttachment (buildRegistry [⟨1, "b.png".data, false⟩])
        ⟨2, "b".data, false⟩).attachments =
      List.lookup 1 (buildRegistry [⟨1, "b.png".data, false⟩]).attachments := by
  have T := register_attachment_disambiguation (buildRegistry [⟨1, "b.png".data, false⟩])
    ⟨2, "b".data, false⟩ rfl
  exact ⟨(T.1 "b.png".data rfl).1, (T.1 "b.png".data rfl).2, T.2.2 1 (by decide)⟩

lemma unresolved_iff (reg obs : List Nat) (c : RawComment) :
    unresolvedAnnouncement reg obs c = true ↔
      ∃ i, parse_comment_text c.thetext = some i ∧ i ≠ 0 ∧ ¬(i ∈ reg ∨ i ∈ obs) := by
  unfold unresolvedAnnouncement
  cases hp : parse_comment_text c.thetext with
  | none => simp
  | some i => simp

lemma reconcileStep_error_unresolved (rep : String) (reg obs : List Nat) (c : RawComment)
    (e : MigrationError) (h : reconcileStep rep reg obs c = .error e) :
    ∃ i, parse_comment_text c.thetext = some i ∧ i ≠ 0 ∧ ¬(i ∈ reg ∨ i ∈ obs) ∧
      e = .dataConsistency i c.thetext := by
  cases hp : parse_comment_text c.thetext with
  | none => simp [reconcileStep, hp, attachmentIdTruthy] at h
  | some i =>
    by_cases hi : i = 0
    · subst hi; simp [reconcileStep, hp, attachmentIdTruthy] at h
    · simp only [reconcileStep, hp, attachmentIdTruthy] at h
      rw [if_pos (bne_iff_ne.mpr hi)] at h
      by_cases hwho : c.who = rep
      · rw [if_pos hwho] at h
        by_cases hmem : i ∈ reg ∨ i ∈ obs
        · rw [if_pos hmem] at h; exact Except.noConfusion h
        · rw [if_neg hmem] at h
          injection h with h'
          exact ⟨i, rfl, hi, hmem, h'.symm⟩
      · rw [if_neg hwho] at h
        by_cases hmem : i ∈ reg ∨ i ∈ obs
        · rw [if_pos hmem] at h; exact Except.noConfusion h
        · rw [if_neg hmem] at h
          injection h with h'
          exact ⟨i, rfl, hi, hmem, h'.symm⟩

lemma reconcileStep_error_of_unresolved (rep : String) (reg obs : List Nat) (c : RawComment)
    (i : Nat) (hp : parse_comment_text c.thetext = some i) (hi : i ≠ 0)
    (hmem : ¬(i ∈ reg ∨ i ∈ obs)) :
    reconcileStep rep reg obs c = .error (.dataConsistency i c.thetext) := by
  simp only [reconcileStep, hp, attachmentIdTruthy]
  rw [if_pos (bne_iff_ne.mpr hi)]
  by_cases hwho : c.who = rep
  · rw [if_pos hwho, if_neg hmem]
  · rw [if_neg hwho, if_neg hmem]

lemma reconcileStep_foreign (rep : String) (reg obs : List Nat) (c : RawComment) (i : Nat)
    (hwho : c.who ≠ rep) (hp : parse_comment_text c.thetext = some i) (hi : i ≠ 0)
    (hmem : i ∈ reg ∨ i ∈ obs) :
    reconcileStep rep reg obs c =
      .ok ({ who := c.who, thetext := stripAnnouncement c.thetext,
             attachid := some i }, false) := by
  simp only [reconcileStep, hp, attachmentIdTruthy]
  rw [if_pos (bne_iff_ne.mpr hi), if_neg hwho, if_pos hmem]

lemma reconcilePass_error_iff (rep : String) (reg obs : List Nat) (cs : List RawComment) :
    (∃ e, reconcilePass rep reg obs cs = .error e) ↔
      ∃ c ∈ cs, unresolvedAnnouncement reg obs c = true := by
  induction cs with
  | nil => simp [reconcilePass]
  | cons c cs ih =>
    cases hs : reconcileStep rep reg obs c with
    | error e =>
      constructor
      · intro _
        obtain ⟨i, hp, hi, hmem, _⟩ := reconcileStep_error_unresolved rep reg obs c e hs
        exact ⟨c, List.mem_cons_self c cs, (unresolved_iff reg obs c).mpr ⟨i, hp, hi, hmem⟩⟩
      · intro _
        exact ⟨e, by simp [reconcilePass, hs]⟩
    | ok p =>
      cases hr : reconcilePass rep reg obs cs with
      | error e =>
        constructor
        · intro _
          obtain ⟨c', hc', hbad⟩ := ih.mp ⟨e, hr⟩
          exact ⟨c', List.mem_cons_of_mem c hc', hbad⟩
        · intro _
          exact ⟨e, by simp [reconcilePass, hs, hr]⟩
      | ok rest =>
        constructor
        · rintro ⟨e, he⟩
          have hall : reconcilePass rep reg obs (c :: cs) = .ok (p :: rest) := by
            simp [reconcilePass, hs, hr]
          rw [hall] at he
          exact Except.noConfusion he
        · rintro ⟨c', hc', hbad⟩
          obtain ⟨i, hp, hi, hmem⟩ := (unresolved_iff reg obs c').mp hbad
          rcases List.mem_cons.mp hc' with rfl | hc''
          · have := reconcileStep_error_of_unresolved rep reg obs c' i hp hi hmem
            rw [hs] at this
            exact Except.noConfusion this
          · obtain ⟨e, he⟩ := ih.mpr ⟨c', hc'', hbad⟩
            rw [hr] at he
            exact Except.noConfusion he

lemma reconcilePass_error_form (rep : String) (reg obs : List Nat) (cs : List RawComment)
    (e : MigrationError) (h : reconcilePass rep reg obs cs = .error e) :
    ∃ c ∈ cs, reconcileStep rep reg obs c = .error e := by
  induction cs with
  | nil => simp [reconcilePass] at h
  | cons c cs ih =>
    cases hs : reconcileStep rep reg obs c with
    | error e' =>
      have hall : reconcilePass rep reg obs (c :: cs) = .error e' := by
        simp [reconcilePass, hs]
      have heq := hall.symm.trans h
      injection heq with h'
      exact ⟨c, List.mem_cons_self c cs, h' ▸ hs⟩
    | ok p =>
      cases hr : reconcilePass rep reg obs cs with
      | error e' =>
        have hall : reconcilePass rep reg obs (c :: cs) = .error e' := by
          simp [reconcilePass, hs, hr]
        have heq := hall.symm.trans h
        injection heq with h'
        subst h'
        obtain ⟨c', hc', hstep⟩ := ih hr
        exact ⟨c', List.mem_cons_of_mem c hc', hstep⟩
      | ok rest =>
        have hall : reconcilePass rep reg obs (c :: cs) = .ok (p :: rest) := by
          simp [reconcilePass, hs, hr]
        have heq := hall.symm.trans h
        exact Except.noConfusion heq

lemma reconcilePass_mem_foreign (rep : String) (reg obs : List Nat) :
    ∀ (cs : List RawComment) (l : List (RawComment × Bool)),
      reconcilePass rep reg obs cs = .ok l →
      ∀ c ∈ cs, c.who ≠ rep →
      ∀ i, parse_comment_text c.thetext = some i → i ≠ 0 → i ∈ reg ∨ i ∈ obs →
      ({ who := c.who, thetext := stripAnnouncement c.thetext,
         attachid := some i }, false) ∈ l := by
  intro cs
  induction cs with
  | nil => intro l h c hc; simp at hc
  | cons a cs ih =>
    intro l h c hc hwho i hp hi hmem
    cases hs : reconcileStep rep reg obs a with
    | error e =>
      have hall : reconcilePass rep reg obs (a :: cs) = .error e := by
        simp [reconcilePass, hs]
      rw [hall] at h
      exact Except.noConfusion h
    | ok p =>
      cases hr : reconcilePass rep reg obs cs with
      | error e =>
        have hall : reconcilePass rep reg obs (a :: cs) = .error e := by
          simp [reconcilePass, hs, hr]
        rw [hall] at h
        exact Except.noConfusion h
      | ok rest =>
        have hall : reconcilePass rep reg obs (a :: cs) = .ok (p :: rest) := by
          simp [reconcilePass, hs, hr]
        rw [hall] at h
        injection h with h'
        subst h'
        rcases List.mem_cons.mp hc with rfl | hc'
        · have hf := reconcileStep_foreign rep reg obs c i hwho hp hi hmem
          have heq := hs.symm.trans hf
          injection heq with h''
          rw [h'']
          exact List.mem_cons_self _ _
        · exact List.mem_cons_of_mem p (ih rest hr c hc' hwho i hp hi hmem)

lemma reconcileComments_error_iff (rep : String) (reg obs : List Nat)
    (cs : List RawComment) (e : MigrationError) :
    reconcileComments rep reg obs cs = .error e ↔
      reconcilePass rep reg obs cs = .error e := by
  unfold reconcileComments
  cases h : reconcilePass rep reg obs cs <;> simp

/-- C1: the reconciliation fails if and only if some comment of the stream
is an announcement (a truthy parsed id) whose id resolves to neither the
registry keys nor the obsolete ids; and every error it fails with is the
data-consistency error naming the referenced id and the offending comment's
text. -/
theorem reconcile_error_characterization (rep : String) (reg obs : List Nat)
    (cs : List RawComment) :
    ((∃ e, reconcileComments rep reg obs cs = .error e) ↔
       ∃ c ∈ cs, unresolvedAnnouncement reg obs c = true) ∧
    (∀ i t, reconcileComments rep reg obs cs = .error (.dataConsistency i t) →
       ∃ c ∈ cs, c.thetext = t ∧ parse_comment_text c.thetext = some i ∧ i ≠ 0 ∧
         ¬(i ∈ reg ∨ i ∈ obs)) := by
  constructor
  · constructor
    · rintro ⟨e, he⟩
      exact (reconcilePass_error_iff rep reg obs cs).mp
        ⟨e, (reconcileComments_error_iff rep reg obs cs e).mp he⟩
    · intro hbad
      obtain ⟨e, he⟩ := (reconcilePass_error_iff rep reg obs cs).mpr hbad
      exact ⟨e, (reconcileComments_error_iff rep reg obs cs e).mpr he⟩
  · intro i t h
    obtain ⟨c, hc, hstep⟩ := reconcilePass_error_form rep reg obs cs _
      ((reconcileComments_error_iff rep reg obs cs _).mp h)
    obtain ⟨i', hp, hi', hmem', heq⟩ := reconcileStep_error_unresolved rep reg obs c _ hstep
    injection heq with h1 h2
    subst h1
    subst h2
    exact ⟨c, hc, rfl, hp, hi', hmem'⟩

/-- Witness for C1: a stream holding one announcement of the unknown id 5
against empty registry and obsolete sets makes reconciliation fail, and the
characterization recovers the offending comment with its id and text. -/
theorem reconcile_error_characterization_witness :
    (∃ e, reconcileComments "alice" [] []
        [⟨"bob", "Created an attachment (id=5)".data, none⟩] = .error e) ∧
    (∃ c ∈ [(⟨"bob", "Created an attachment (id=5)".data, none⟩ : RawComment)],
       c.thetext = "Created an attachment (id=5)".data ∧
       parse_comment_text c.thetext = some 5 ∧ 5 ≠ 0 ∧
       ¬(5 ∈ ([] : List Nat) ∨ 5 ∈ ([] : List Nat))) := by
  have T := reconcile_error_characterization "alice" [] []
    [⟨"bob", "Created an attachment (id=5)".data, none⟩]
  refine ⟨T.1.mpr ⟨⟨"bob", "Created an attachment (id=5)".data, none⟩, by simp, by decide⟩,
    T.2 5 "Created an attachment (id=5)".data rfl⟩

/-- C2 (amended): another author's announcement of a resolving id is kept in
the reconciled stream with the boilerplate stripped from its body and the
resolved id set as its tag, even when stripping leaves the body empty;
however, an empty-bodied comment is then silently dropped by the engine's
own comment-loading step instead of being passed to the destination. -/
theorem reconcile_keeps_foreign_announcements (rep : String) (reg obs : List Nat)
    (cs out : List RawComment) (c : RawComment) (i : Nat)
    (hok : reconcileComments rep reg obs cs = .ok out) (hc : c ∈ cs) (hwho : c.who ≠ rep)
    (hp : parse_comment_text c.thetext = some i) (hi : i ≠ 0) (hres : i ∈ reg ∨ i ∈ obs) :
    ({ who := c.who, thetext := stripAnnouncement c.thetext,
       attachid := some i } : RawComment) ∈ out ∧
    (stripAnnouncement c.thetext = [] →
       ({ who := c.who, thetext := stripAnnouncement c.thetext,
          attachid := some i } : RawComment) ∉ loadComments out) := by
  unfold reconcileComments at hok
  cases hl : reconcilePass rep reg obs cs with
  | error e => rw [hl] at hok; exact Except.noConfusion hok
  | ok l =>
    rw [hl] at hok
    injection hok with hout
    have hmem := reconcilePass_mem_foreign rep reg obs cs l hl c hc hwho i hp hi hres
    constructor
    · rw [← hout]
      exact List.mem_map.mpr ⟨_, List.mem_filter.mpr ⟨hmem, by simp⟩, rfl⟩
    · intro hempty hmem2
      unfold loadComments at hmem2
      have := (List.mem_filter.mp hmem2).2
      simp [hempty] at this

/-- Witness for C2 (amended) at a concrete bare announcement by bob of the
existing attachment 7 reported by alice: the stripped, tagged, empty-bodied
comment is in the reconciled stream and is dropped by the loading step. -/
theorem reconcile_keeps_foreign_announcements_witness :
    ({ who := "bob", thetext := stripAnnouncement "Created an attachment (id=7)".data,
       attachid := some 7 } : RawComment) ∈
      [(⟨"bob", [], some 7⟩ : RawComment)] ∧
    ({ who := "bob", thetext := stripAnnouncement "Created an attachment (id=7)".data,
       attachid := some 7 } : RawComment) ∉
      loadComments [(⟨"bob", [], some 7⟩ : RawComment)] := by
  have T := reconcile_keeps_foreign_announcements "alice" [7] []
    [⟨"bob", "Created an attachment (id=7)".data, none⟩] [⟨"bob", [], some 7⟩]
    ⟨"bob", "Created an attachment (id=7)".data, none⟩ 7
    rfl (by simp) (by decide) rfl (by decide) (by decide)
  exact ⟨T.1, T.2 rfl⟩

lemma dictInsert_keys_fresh (d : List (Nat × Attachment)) (k : Nat) (v : Attachment)
    (h : k ∉ d.map Prod.fst) :
    (dictInsert d k v).map Prod.fst = d.map Prod.fst ++ [k] := by
  induction d with
  | nil => rfl
  | cons p rest ih =>
    obtain ⟨k0, v0⟩ := p
    have hk : k0 ≠ k := by
      intro he
      exact h (by simp [he])
    simp only [dictInsert, if_neg hk, List.map_cons]
    rw [ih (fun hm => h (List.mem_cons_of_mem _ hm))]
    rfl

lemma registerAttachment_obsolete (st : RegistryState) (a : RawAttachment)
    (hobs : a.isobsolete = true) :
    (registerAttachment st a).attachments = st.attachments ∧
    (registerAttachment st a).obsolete_attachments =
      st.obsolete_attachments ++ [a.attachid] := by
  constructor <;> simp [registerAttachment, hobs]

lemma registerAttachment_nonobs (st : RegistryState) (a : RawAttachment)
    (hobs : a.isobsolete = false) :
    ∃ v, (registerAttachment st a).attachments = dictInsert st.attachments a.attachid v ∧
      (registerAttachment st a).obsolete_attachments = st.obsolete_attachments := by
  unfold registerAttachment
  rw [hobs]
  simp only [Bool.false_eq_true, if_false]
  cases hfil : st.attachment_files.filter (fun x => containsSub a.filename x) with
  | nil => exact ⟨_, rfl, rfl⟩
  | cons m1 rest =>
    cases rest with
    | nil => exact ⟨_, rfl, rfl⟩
    | cons m2 rest2 => exact ⟨_, rfl, rfl⟩

lemma foldRegister_characterization :
    ∀ (atts : List RawAttachment) (st : RegistryState),
      atts.Pairwise (fun x y => x.attachid ≠ y.attachid) →
      (∀ a ∈ atts, a.attachid ∉ st.attachments.map Prod.fst) →
      (List.foldl registerAttachment st atts).attachments.map Prod.fst =
        st.attachments.map Prod.fst ++
          (atts.filter (fun a => !a.isobsolete)).map (fun a => a.attachid) ∧
      (List.foldl registerAttachment st atts).obsolete_attachments =
        st.obsolete_attachments ++
          (atts.filter (fun a => a.isobsolete)).map (fun a => a.attachid) := by
  intro atts
  induction atts with
  | nil => intro st _ _; simp
  | cons a as ih =>
    intro st hpw hfresh
    rw [List.foldl_cons]
    have hpw' := List.pairwise_cons.mp hpw
    cases hobs : a.isobsolete with
    | true =>
      obtain ⟨hatt, hobsl⟩ := registerAttachment_obsolete st a hobs
      have hfresh' : ∀ b ∈ as, b.attachid ∉ (registerAttachment st a).attachments.map Prod.fst := by
        intro b hb
        rw [hatt]
        exact hfresh b (List.mem_cons_of_mem a hb)
      obtain ⟨h1, h2⟩ := ih (registerAttachment st a) hpw'.2 hfresh'
      constructor
      · rw [h1, hatt]
        simp [hobs]
      · rw [h2, hobsl]
        simp [hobs]
    | false =>
      obtain ⟨v, hatt, hobsl⟩ := registerAttachment_nonobs st a hobs
      have hkeys : (registerAttachment st a).attachments.map Prod.fst =
          st.attachments.map Prod.fst ++ [a.attachid] := by
        rw [hatt]
        exact dictInsert_keys_fresh _ _ _ (hfresh a (List.mem_cons_self a as))
      have hfresh' : ∀ b ∈ as, b.attachid ∉ (registerAttachment st a).attachments.map Prod.fst := by
        intro b hb
        rw [hkeys]
        intro hmem
        rcases List.mem_append.mp hmem with h' | h'
        · exact hfresh b (List.mem_cons_of_mem a hb) h'
        · have hba : b.attachid = a.attachid := by simpa using h'
          exact hpw'.1 b hb hba.symm
      obtain ⟨h1, h2⟩ := ih (registerAttachment st a) hpw'.2 hfresh'
      constructor
      · rw [h1, hkeys]
        simp [hobs]
      · rw [h2, hobsl]
        simp [hobs]

lemma buildRegistry_characterization (atts : List RawAttachment)
    (hpw : atts.Pairwise (fun x y => x.attachid ≠ y.attachid)) :
    (buildRegistry atts).attachments.map Prod.fst =
      (atts.filter (fun a => !a.isobsolete)).map (fun a => a.attachid) ∧
    (buildRegistry atts).obsolete_attachments =
      (atts.filter (fun a => a.isobsolete)).map (fun a => a.attachid) := by
  have := foldRegister_characterization atts ⟨[], [], []⟩ hpw (by intro a _; simp)
  simpa [buildRegistry] using this

/-- C6: over an attachment array with ids unique within the record, every
non-obsolete attachment's id appears exactly once among the keys of the
built registry and never in the obsolete-id list, and every obsolete
attachment's id appears in the obsolete-id list and never among the registry
keys. -/
theorem registry_partition (atts : List RawAttachment)
    (h : (atts.map (fun a => a.attachid)).Nodup) (a : RawAttachment) (ha : a ∈ atts) :
    (a.isobsolete = false →
       ((buildRegistry atts).attachments.map Prod.fst).count a.attachid = 1 ∧
       a.attachid ∉ (buildRegistry atts).obsolete_attachments) ∧
    (a.isobsolete = true →
       a.attachid ∈ (buildRegistry atts).obsolete_attachments ∧
       a.attachid ∉ (buildRegistry atts).attachments.map Prod.fst) := by
  have hpw : atts.Pairwise (fun x y => x.attachid ≠ y.attachid) := List.pairwise_map.mp h
  obtain ⟨hkeys, hobs⟩ := buildRegistry_characterization atts hpw
  constructor
  · intro hfalse
    constructor
    · rw [hkeys]
      have hnd : ((atts.filter fun a => !a.isobsolete).map (fun a => a.attachid)).Nodup :=
        List.Nodup.sublist ((List.filter_sublist atts).map _) h
      have hmem : a.attachid ∈ (atts.filter fun a => !a.isobsolete).map (fun a => a.attachid) :=
        List.mem_map.mpr ⟨a, List.mem_filter.mpr ⟨ha, by simp [hfalse]⟩, rfl⟩
      exact List.count_eq_one_of_mem hnd hmem
    · rw [hobs]
      intro hmem
      obtain ⟨b, hb, hbe⟩ := List.mem_map.mp hmem
      have hbatts := (List.mem_filter.mp hb).1
      have hbobs : b.isobsolete = true := by simpa using (List.mem_filter.mp hb).2
      have hba : b = a := List.inj_on_of_nodup_map h hbatts ha hbe
      rw [hba, hfalse] at hbobs
      exact Bool.noConfusion hbobs
  · intro htrue
    constructor
    · rw [hobs]
      exact List.mem_map.mpr ⟨a, List.mem_filter.mpr ⟨ha, by simp [htrue]⟩, rfl⟩
    · rw [hkeys]
      intro hmem
      obtain ⟨b, hb, hbe⟩ := List.mem_map.mp hmem
      have hbatts := (List.mem_filter.mp hb).1
      have hbobs : b.isobsolete = false := by simpa using (List.mem_filter.mp hb).2
      have hba : b = a := List.inj_on_of_nodup_map h hbatts ha hbe
      rw [hba, htrue] at hbobs
      exact Bool.noConfusion hbobs

/-- Witness for C6 at a record with one active attachment of id 1 and one
obsolete attachment of id 2. -/
theorem registry_partition_witness :
    (((buildRegistry [⟨1, "a".data, false⟩, ⟨2, "b".data, true⟩]).attachments.map
        Prod.fst).count 1 = 1 ∧
      1 ∉ (buildRegistry [⟨1, "a".data, false⟩, ⟨2, "b".data, true⟩]).obsolete_attachments) ∧
    (2 ∈ (buildRegistry [⟨1, "a".data, false⟩, ⟨2, "b".data, true⟩]).obsolete_attachments ∧
      2 ∉ (buildRegistry [⟨1, "a".data, false⟩,
            ⟨2, "b".data, true⟩]).attachments.map Prod.fst) := by
  refine ⟨(registry_partition [⟨1, "a".data, false⟩, ⟨2, "b".data, true⟩] (by decide)
      ⟨1, "a".data, false⟩ (by decide)).1 rfl,
    (registry_partition [⟨1, "a".data, false⟩, ⟨2, "b".data, true⟩] (by decide)
      ⟨2, "b".data, true⟩ (by decide)).2 rfl⟩

lemma mem_adminToggle (admins : Nat → Bool) (s : Nat) (b : Bool) (x : SaveAction)
    (h : x ∈ adminToggle admins s b) : x = .setAdmin s b := by
  unfold adminToggle at h
  split at h
  · simp at h
  · simpa using h

lemma issueSaveTrace_shape (admins : Nat → Bool) (iss : IssueModel) (itr : List SaveAction)
    (h : issueSaveTrace admins iss = .ok itr) :
    itr = [SaveAction.validateIssue] ++ adminToggle admins iss.sudoUser true ++
      [SaveAction.submitIssue] ++ adminToggle admins iss.sudoUser false := by
  unfold issueSaveTrace at h
  cases hv : issueValidate iss with
  | error e => rw [hv] at h; exact Except.noConfusion h
  | ok u => rw [hv] at h; injection h with h'; exact h'.symm

lemma commentSaveTrace_shape (admins : Nat → Bool) (iid : Nat) (cm : CommentModel)
    (tr : List SaveAction) (h : commentSaveTrace admins iid cm = .ok tr) :
    tr = [SaveAction.validateComment cm.body] ++ adminToggle admins cm.sudoUser true ++
      [SaveAction.submitComment cm.body] ++ adminToggle admins cm.sudoUser false := by
  unfold commentSaveTrace at h
  cases hv : commentValidate cm iid with
  | error e => rw [hv] at h; exact Except.noConfusion h
  | ok u => rw [hv] at h; injection h with h'; exact h'.symm

lemma commentsSaveTrace_actions (admins : Nat → Bool) (iid : Nat) :
    ∀ (cms : List CommentModel) (ctr : List SaveAction),
      commentsSaveTrace admins iid cms = .ok ctr →
      ∀ x ∈ ctr, (∃ b, x = SaveAction.validateComment b) ∨
        (∃ b, x = SaveAction.submitComment b) ∨ (∃ u v, x = SaveAction.setAdmin u v) := by
  intro cms
  induction cms with
  | nil =>
    intro ctr h x hx
    injection h with h'
    subst h'
    simp at hx
  | cons cm cms ih =>
    intro ctr h x hx
    cases hs : commentSaveTrace admins iid cm with
    | error e =>
      have hall : commentsSaveTrace admins iid (cm :: cms) = .error e := by
        simp [commentsSaveTrace, hs]
      rw [hall] at h
      exact Except.noConfusion h
    | ok tr =>
      cases hr : commentsSaveTrace admins iid cms with
      | error e =>
        have hall : commentsSaveTrace admins iid (cm :: cms) = .error e := by
          simp [commentsSaveTrace, hs, hr]
        rw [hall] at h
        exact Except.noConfusion h
      | ok trs =>
        have hall : commentsSaveTrace admins iid (cm :: cms) = .ok (tr ++ trs) := by
          simp [commentsSaveTrace, hs, hr]
        rw [hall] at h
        injection h with h'
        subst h'
        rcases List.mem_append.mp hx with hx' | hx'
        · rw [commentSaveTrace_shape admins iid cm tr hs] at hx'
          simp only [List.append_assoc, List.mem_append, List.mem_singleton] at hx'
          rcases hx' with hx' | hx' | hx' | hx'
          · exact Or.inl ⟨cm.body, hx'⟩
          · have := mem_adminToggle admins cm.sudoUser true x hx'
            exact Or.inr (Or.inr ⟨_, _, this⟩)
          · exact Or.inr (Or.inl ⟨cm.body, hx'⟩)
          · have := mem_adminToggle admins cm.sudoUser false x hx'
            exact Or.inr (Or.inr ⟨_, _, this⟩)
        · exact ih trs hr x hx'

lemma commentsSaveTrace_submit_mem (admins : Nat → Bool) (iid : Nat) :
    ∀ (cms : List CommentModel) (ctr : List SaveAction),
      commentsSaveTrace admins iid cms = .ok ctr →
      ∀ cm ∈ cms, SaveAction.submitComment cm.body ∈ ctr := by
  intro cms
  induction cms with
  | nil => intro ctr _ cm hcm; simp at hcm
  | cons cm0 cms ih =>
    intro ctr h cm hcm
    cases hs : commentSaveTrace admins iid cm0 with
    | error e =>
      have hall : commentsSaveTrace admins iid (cm0 :: cms) = .error e := by
        simp [commentsSaveTrace, hs]
      rw [hall] at h
      exact Except.noConfusion h
    | ok tr =>
      cases hr : commentsSaveTrace admins iid cms with
      | error e =>
        have hall : commentsSaveTrace admins iid (cm0 :: cms) = .error e := by
          simp [commentsSaveTrace, hs, hr]
        rw [hall] at h
        exact Except.noConfusion h
      | ok trs =>
        have hall : commentsSaveTrace admins iid (cm0 :: cms) = .ok (tr ++ trs) := by
          simp [commentsSaveTrace, hs, hr]
        rw [hall] at h
        injection h with h'
        subst h'
        rcases List.mem_cons.mp hcm with rfl | hcm'
        · refine List.mem_append_left _ ?_
          rw [commentSaveTrace_shape admins iid cm tr hs]
          simp
        · exact List.mem_append_right _ (ih trs hr cm hcm')

lemma unique_split {α : Type} (x : α) :
    ∀ (A B pre post : List α), x ∉ A → x ∉ B → A ++ x :: B = pre ++ x :: post →
      pre = A ∧ post = B := by
  intro A
  induction A with
  | nil =>
    intro B pre post hA hB h
    cases pre with
    | nil =>
      simp only [List.nil_append] at h
      injection h with h1 h2
      exact ⟨rfl, h2.symm⟩
    | cons p pre' =>
      simp only [List.nil_append, List.cons_append] at h
      injection h with h1 h2
      exfalso
      apply hB
      rw [h2]
      exact List.mem_append_right _ (List.mem_cons_self _ _)
  | cons a A' ih =>
    intro B pre post hA hB h
    cases pre with
    | nil =>
      simp only [List.cons_append, List.nil_append] at h
      injection h with h1 h2
      exfalso
      apply hA
      rw [← h1]
      exact List.mem_cons_self a A'
    | cons p pre' =>
      simp only [List.cons_append] at h
      injection h with h1 h2
      obtain ⟨hp, hpost⟩ := ih B pre' post (fun hm => hA (List.mem_cons_of_mem a hm)) hB h2
      exact ⟨by rw [hp, ← h1], hpost⟩

/-- C9: whenever the issue-thread save succeeds, its action trace emits the
close directive exactly when the bug status is RESOLVED; wherever the close
directive occurs it is the very last action, after the issue validation and
submission and after the submission of every comment; and wherever the issue
submission occurs, the issue validation already happened before it, so the
lifecycle of building, validating, submitting and conditionally closing is
neither reordered nor skipped. -/
theorem issue_lifecycle_ordering (admins : Nat → Bool) (dryRun : Bool) (responseIid : Nat)
    (iss : IssueModel) (cms : List CommentModel) (tr : List SaveAction)
    (h : threadSaveTrace admins dryRun responseIid iss cms = .ok tr) :
    (SaveAction.closeIssue ∈ tr ↔ iss.status = "RESOLVED") ∧
    (∀ pre post, tr = pre ++ SaveAction.closeIssue :: post →
       post = [] ∧ SaveAction.validateIssue ∈ pre ∧ SaveAction.submitIssue ∈ pre ∧
       ∀ cm ∈ cms, SaveAction.submitComment cm.body ∈ pre) ∧
    (∀ pre post, tr = pre ++ SaveAction.submitIssue :: post →
       SaveAction.validateIssue ∈ pre) := by
  unfold threadSaveTrace at h
  cases hi : issueSaveTrace admins iss with
  | error e => rw [hi] at h; exact Except.noConfusion h
  | ok itr =>
    rw [hi] at h
    cases hc : commentsSaveTrace admins (if dryRun then 50 else responseIid) cms with
    | error e => rw [hc] at h; exact Except.noConfusion h
    | ok ctr =>
      rw [hc] at h
      injection h with h'
      have hshape := issueSaveTrace_shape admins iss itr hi
      have hctr := commentsSaveTrace_actions admins _ cms ctr hc
      have hcloseItr : SaveAction.closeIssue ∉ itr := by
        rw [hshape]
        simp only [List.append_assoc, List.mem_append, List.mem_singleton]
        rintro (hm | hm | hm | hm)
        · exact SaveAction.noConfusion hm
        · exact SaveAction.noConfusion (mem_adminToggle admins iss.sudoUser true _ hm)
        · exact SaveAction.noConfusion hm
        · exact SaveAction.noConfusion (mem_adminToggle admins iss.sudoUser false _ hm)
      have hcloseCtr : SaveAction.closeIssue ∉ ctr := by
        intro hm
        rcases hctr _ hm with ⟨b, hb⟩ | ⟨b, hb⟩ | ⟨u, v, hb⟩ <;> exact SaveAction.noConfusion hb
      have hsubCtr : SaveAction.submitIssue ∉ ctr := by
        intro hm
        rcases hctr _ hm with ⟨b, hb⟩ | ⟨b, hb⟩ | ⟨u, v, hb⟩ <;> exact SaveAction.noConfusion hb
      refine ⟨?_, ?_, ?_⟩
      · rw [← h']
        by_cases hres : iss.status = "RESOLVED"
        · simp [hres, List.mem_append, hcloseItr, hcloseCtr]
        · simp [hres, List.mem_append, hcloseItr, hcloseCtr]
      · intro pre post hsplit
        by_cases hres : iss.status = "RESOLVED"
        · have htr : (itr ++ ctr) ++ SaveAction.closeIssue :: [] =
              pre ++ SaveAction.closeIssue :: post := by
            rw [← hsplit, ← h', hres]
            simp
          obtain ⟨hpre, hpost⟩ := unique_split SaveAction.closeIssue (itr ++ ctr) [] pre post
            (by
              intro hm
              rcases List.mem_append.mp hm with hm | hm
              · exact hcloseItr hm
              · exact hcloseCtr hm)
            (by simp) htr
          subst hpre
          refine ⟨hpost, ?_, ?_, ?_⟩
          · refine List.mem_append_left _ ?_
            rw [hshape]
            simp
          · refine List.mem_append_left _ ?_
            rw [hshape]
            simp
          · intro cm hcm
            exact List.mem_append_right _
              (commentsSaveTrace_submit_mem admins _ cms ctr hc cm hcm)
        · exfalso
          have hmem : SaveAction.closeIssue ∈ tr := by
            rw [hsplit]
            exact List.mem_append_right _ (List.mem_cons_self _ _)
          rw [← h'] at hmem
          simp only [hres, if_false, List.append_nil, List.mem_append] at hmem
          rcases hmem with hm | hm
          · exact hcloseItr hm
          · exact hcloseCtr hm
      · intro pre post hsplit
        have hitr2 : itr = ([SaveAction.validateIssue] ++ adminToggle admins iss.sudoUser true) ++
            SaveAction.submitIssue ::
              (adminToggle admins iss.sudoUser false) := by
          rw [hshape]
          simp
        have htr : ([SaveAction.validateIssue] ++ adminToggle admins iss.sudoUser true) ++
            SaveAction.submitIssue ::
              (adminToggle admins iss.sudoUser false ++ (ctr ++
                (if iss.status = "RESOLVED" then [SaveAction.closeIssue] else []))) =
            pre ++ SaveAction.submitIssue :: post := by
          rw [← hsplit, ← h', hitr2]
          simp
        obtain ⟨hpre, _⟩ := unique_split SaveAction.submitIssue
          ([SaveAction.validateIssue] ++ adminToggle admins iss.sudoUser true)
          (adminToggle admins iss.sudoUser false ++ (ctr ++
            (if iss.status = "RESOLVED" then [SaveAction.closeIssue] else [])))
          pre post
          (by
            intro hm
            rcases List.mem_append.mp hm with hm | hm
            · simp only [List.mem_singleton] at hm
              exact SaveAction.noConfusion hm
            · exact SaveAction.noConfusion (mem_adminToggle admins iss.sudoUser true _ hm))
          (by
            intro hm
            rcases List.mem_append.mp hm with hm | hm
            · exact SaveAction.noConfusion (mem_adminToggle admins iss.sudoUser false _ hm)
            · rcases List.mem_append.mp hm with hm | hm
              · exact hsubCtr hm
              · by_cases hres : iss.status = "RESOLVED"
                · rw [if_pos hres] at hm
                  simp only [List.mem_singleton] at hm
                  exact SaveAction.noConfusion hm
                · rw [if_neg hres] at hm
                  simp at hm)
          htr
        subst hpre
        exact List.mem_append_left _ (List.mem_singleton.mpr rfl)

/-- Witness for C9 at a concrete resolved issue with one comment, saved in
dry-run mode with every user already an admin. -/
theorem issue_lifecycle_ordering_witness :
    SaveAction.closeIssue ∈
      [SaveAction.validateIssue, SaveAction.submitIssue,
       SaveAction.validateComment "c".data, SaveAction.submitComment "c".data,
       SaveAction.closeIssue] ∧
    SaveAction.validateIssue ∈
      [SaveAction.validateIssue, SaveAction.submitIssue,
       SaveAction.validateComment "c".data, SaveAction.submitComment "c".data] := by
  have T := issue_lifecycle_ordering (fun _ => true) true 0
    ⟨"t".data, "d".data, "RESOLVED", 1⟩ [⟨"c".data, 1⟩]
    [SaveAction.validateIssue, SaveAction.submitIssue,
     SaveAction.validateComment "c".data, SaveAction.submitComment "c".data,
     SaveAction.closeIssue] rfl
  refine ⟨T.1.mpr rfl, ?_⟩
  have := (T.2.1 [SaveAction.validateIssue, SaveAction.submitIssue,
    SaveAction.validateComment "c".data, SaveAction.submitComment "c".data] [] rfl).2.1
  exact this

end Bugzilla2Gitlab
